import Mathlib

/-!
Verification of the `ThermodynamicState` tracking engine of the
`sandlermisc` repository (file `src/sandlermisc/thermodynamicstate.py`).

The development shallowly embeds the tracked-mode ("smart") attribute
protocol: `is_none_or_empty`, `_dimensionalize` / `get_default_unit`,
`_set_state_var`, `_set_parameter`, `_invalidate` /
`_blank_computed_state_vars`, `_smart_setattr_` / `_smart_post_init`,
`smart_resolve`, `swap_input_vars` and `delta`.  Python machine floats are
modelled by rationals, pint quantities by a magnitude together with a unit
(dimension tag, scale and offset relative to a fixed base unit of that
dimension), and the subclass-supplied `resolve` routine by an explicit list
of attribute writes followed by a returned boolean or a raised exception.
A ghost `trace` field records invalidation and resolve-invocation events;
it is write-only instrumentation and feeds no decision in the semantics.
-/

namespace Sandler

/-! ## Dimensions, units and quantities (the pint collaborator) -/

/-- Dimension tags for the physical quantities used by the state class. -/
inductive Dim where
  | temperature
  | pressure
  | molarVolume
  | molarEnergy
  | molarEntropy
  | dimensionless
deriving DecidableEq, Repr

/-- A pint unit: a dimension together with an affine map to the base unit of
that dimension (`base = mag * scale + offset`). -/
structure PintUnit where
  dim : Dim
  scale : ℚ
  offset : ℚ
deriving DecidableEq, Repr

/-- Kelvin, the base temperature unit and the default unit of `T`. -/
def uK : PintUnit := ⟨Dim.temperature, 1, 0⟩

/-- Degrees Celsius (offset temperature unit). -/
def uDegC : PintUnit := ⟨Dim.temperature, 1, 5463/20⟩

/-- Megapascal, the base pressure unit here and the default unit of `P`. -/
def uMPa : PintUnit := ⟨Dim.pressure, 1, 0⟩

/-- Bar, expressed relative to megapascal. -/
def uBar : PintUnit := ⟨Dim.pressure, 1/10, 0⟩

/-- Pascal, expressed relative to megapascal. -/
def uPa : PintUnit := ⟨Dim.pressure, 1/1000000, 0⟩

/-- Cubic metre per mole, the default unit of `v`. -/
def uM3Mol : PintUnit := ⟨Dim.molarVolume, 1, 0⟩

/-- Joule per mole, the default unit of `u` and `h`. -/
def uJMol : PintUnit := ⟨Dim.molarEnergy, 1, 0⟩

/-- Kilojoule per mole. -/
def uKJMol : PintUnit := ⟨Dim.molarEnergy, 1000, 0⟩

/-- Joule per mole kelvin, the default unit of `s`. -/
def uJMolK : PintUnit := ⟨Dim.molarEntropy, 1, 0⟩

/-- The dimensionless unit (pint `ureg.dimensionless`). -/
def uDimless : PintUnit := ⟨Dim.dimensionless, 1, 0⟩

/-- Magnitude of a quantity re-expressed in the base unit of its dimension. -/
def toBase (mag : ℚ) (u : PintUnit) : ℚ := mag * u.scale + u.offset

/-- Unit conversion, `pint.Quantity.to`: defined exactly when the dimensions
agree, otherwise pint raises `DimensionalityError` (`none` here). -/
def uconv (mag : ℚ) (u target : PintUnit) : Option ℚ :=
  if u.dim = target.dim then
    some ((mag * u.scale + u.offset - target.offset) / target.scale)
  else
    none

/-! ## Python values -/

/-- The Python values the attribute protocol has to distinguish: `None`,
empty containers (empty `list`, `dict`, zero-size `ndarray`), raw numbers
(`float`/`int`), pint quantities, and any other non-empty object. -/
inductive PyVal where
  | none
  | emptyList
  | emptyDict
  | emptyArr
  | num (q : ℚ)
  | qty (mag : ℚ) (u : PintUnit)
  | obj (tag : Nat)
deriving DecidableEq, Repr

/-- Embeds `is_none_or_empty` (module-level helper, lines 20-27). -/
def is_none_or_empty : PyVal → Bool
  | PyVal.none => true
  | PyVal.emptyList => true
  | PyVal.emptyDict => true
  | PyVal.emptyArr => true
  | _ => false

/-! ## The state-variable registry -/

/-- `_STATE_VAR_ORDERED_FIELDS`: the six primary state variables. -/
def _STATE_VAR_ORDERED_FIELDS : List String := ["T", "P", "v", "s", "h", "u"]

/-- `_STATE_VAR_FIELDS`: the primary variables together with the vapor
fraction `x` (the Python frozenset is used only through membership, so a
list models it). -/
def _STATE_VAR_FIELDS : List String := _STATE_VAR_ORDERED_FIELDS ++ ["x"]

/-- `ThermodynamicState.get_default_unit`: default unit per field, with
`ureg.dimensionless` for every name outside the explicit map. -/
def get_default_unit (field_name : String) : PintUnit :=
  if field_name = "P" then uMPa
  else if field_name = "T" then uK
  else if field_name = "v" then uM3Mol
  else if field_name = "u" then uJMol
  else if field_name = "h" then uJMol
  else if field_name = "s" then uJMolK
  else uDimless

/-- `ThermodynamicState._dimensionalize`: raw numbers assigned to a
recognized state-variable field are wrapped in the field's default unit;
incoming quantities on such a field are converted to the default unit
(`none` models the raised `DimensionalityError`); everything else passes
through unchanged. -/
def _dimensionalize (name : String) (value : PyVal) : Option PyVal :=
  match value with
  | PyVal.num q =>
      if name ∈ _STATE_VAR_FIELDS then
        some (PyVal.qty q (get_default_unit name))
      else
        some value
  | PyVal.qty m u =>
      if name ∈ _STATE_VAR_FIELDS then
        (uconv m u (get_default_unit name)).map
          (fun m2 => PyVal.qty m2 (get_default_unit name))
      else
        some value
  | _ => some value

/-! ## The tracked state -/

/-- Ghost events recorded by the instrumentation: `_invalidate` ran, or the
pluggable `resolve` routine was invoked (tagged with the value of the
`_is_calculating` flag at the moment of invocation). -/
inductive Ev where
  | inval
  | rcall (wasCalculating : Bool)
deriving DecidableEq, Repr

/-- A tracked-mode `ThermodynamicState`: the attribute store plus the
bookkeeping the full `_cache` dictionary holds, and the ghost trace. -/
structure TState where
  attrs : List (String × PyVal) := []
  inputVars : List String := []
  paramsSpecified : List String := []
  isSpecified : Bool := false
  isParameterized : Bool := false
  isCalculating : Bool := false
  isComplete : Bool := false
  calculatedVars : List (String × PyVal) := []
  trace : List Ev := []
deriving DecidableEq, Repr

/-- A freshly constructed tracked-mode state: empty input list, all flags
false (the dataclass defaults are all `None` and the smart setter discards
`None` writes, so construction with no keyword values stores nothing). -/
def initState : TState := {}

/-- Update (or insert) one attribute in the store. -/
def setA : List (String × PyVal) → String → PyVal → List (String × PyVal)
  | [], n, v => [(n, v)]
  | (m, w) :: rest, n, v =>
      if m = n then (n, v) :: rest else (m, w) :: setA rest n v

/-- Read one attribute from the store; absent state-variable attributes read
as the dataclass default `None`. -/
def getA (attrs : List (String × PyVal)) (n : String) : PyVal :=
  match attrs with
  | [] => PyVal.none
  | (m, w) :: rest => if m = n then w else getA rest n

/-! ## The write-protocol primitives -/

/-- Attribute-store part of `_blank_computed_state_vars`: every state
variable not currently tracked as an input is overwritten with `None`. -/
def blankAttrs (attrs : List (String × PyVal)) (inputs : List String) :
    List (String × PyVal) :=
  _STATE_VAR_FIELDS.foldl
    (fun a p => if p ∈ inputs then a else setA a p PyVal.none) attrs

/-- `ThermodynamicState._blank_computed_state_vars` (lines 320-328). -/
def _blank_computed_state_vars (st : TState) : TState :=
  { st with attrs := blankAttrs st.attrs st.inputVars, isComplete := false }

/-- `ThermodynamicState._invalidate` (lines 330-333); appends the ghost
`inval` event. -/
def _invalidate (st : TState) : TState :=
  _blank_computed_state_vars
    { st with isComplete := false, calculatedVars := [],
              trace := st.trace ++ [Ev.inval] }

/-- `ThermodynamicState._is_self_specified`: exactly two recorded inputs. -/
def _is_self_specified (st : TState) : Bool :=
  st.inputVars.length == 2

/-- `ThermodynamicState._is_self_parameterized` for a subclass with
parameter fields `PF`. -/
def _is_self_parameterized (PF : List String) (st : TState) : Bool :=
  PF.all (fun param => param ∈ st.paramsSpecified)

/-- `ThermodynamicState._set_state_var` (lines 356-366): store the value,
append the name to the input list when fewer than two inputs are recorded
and it is not already one of them, and invalidate whenever the written name
is (now) in the input list. -/
def _set_state_var (st : TState) (name : String) (value : PyVal) : TState :=
  let st1 : TState := { st with attrs := setA st.attrs name value }
  let inputs1 :=
    if st1.inputVars.length < 2 ∧ name ∉ st1.inputVars then
      st1.inputVars ++ [name]
    else
      st1.inputVars
  let st2 : TState := { st1 with inputVars := inputs1 }
  if name ∈ inputs1 then _invalidate st2 else st2

/-- `ThermodynamicState._set_parameter` (lines 372-378). -/
def _set_parameter (st : TState) (name : String) (value : PyVal) : TState :=
  let st1 : TState := { st with attrs := setA st.attrs name value }
  if value ≠ PyVal.none then
    let st2 := _invalidate st1
    if name ∉ st2.paramsSpecified then
      { st2 with paramsSpecified := st2.paramsSpecified ++ [name] }
    else
      st2
  else
    st1

/-- Steps 3-5 of `_smart_setattr_`: route the write to the parameter setter
or the state-variable setter. -/
def store_phase (PF : List String) (st : TState) (name : String)
    (value : PyVal) : TState :=
  if name ∈ PF then _set_parameter st name value
  else _set_state_var st name value

/-- The two flag recomputations at the end of `_smart_setattr_`. -/
def flags_phase (PF : List String) (st : TState) : TState :=
  { st with isSpecified := _is_self_specified st,
            isParameterized := _is_self_parameterized PF st }

/-! ## The resolve collaborator and the full write protocol -/

/-- Whether a protocol step returned normally or let an exception escape. -/
inductive Flow where
  | done
  | raised
deriving DecidableEq, Repr

/-- Outcome of `smart_resolve`: the returned boolean, or a raised
exception. -/
inductive ROut where
  | ret (b : Bool)
  | raised
deriving DecidableEq, Repr

/-- The pluggable subclass `resolve` routine: the sequence of attribute
writes it performs on `self`, followed by its returned boolean
(`outcome = some b`) or a raised exception (`outcome = none`). -/
structure Resolver where
  writes : List (String × PyVal)
  outcome : Option Bool
deriving DecidableEq, Repr

mutual

/-- `__setattr__`-dispatched `_smart_setattr_` (lines 380-407) on an
already-dimensionalized value, with a fuel bound on the
`_smart_post_init → smart_resolve → resolve → __setattr__` recursion
(`none` = fuel exhausted, never the case for positive fuel). -/
def setattrF (R : Resolver) (PF : List String) :
    Nat → TState → String → PyVal → Option (TState × Flow)
  | fuel, st, name, value =>
    if is_none_or_empty value then
      some (st, Flow.done)
    else if name ∉ _STATE_VAR_FIELDS ∧ name ∉ PF then
      some ({ st with attrs := setA st.attrs name value }, Flow.done)
    else
      let st2 := flags_phase PF (store_phase PF st name value)
      if st2.isCalculating then
        some (st2, Flow.done)
      else
        match fuel with
        | 0 => none
        | fuel' + 1 =>
          match resolveF R PF fuel' st2 with
          | none => none
          | some (st3, ROut.raised) => some (st3, Flow.raised)
          | some (st3, ROut.ret b) =>
              some ({ st3 with isComplete := b }, Flow.done)
termination_by fuel st name value => (fuel, 0, 0)

/-- `ThermodynamicState.smart_resolve` (lines 241-252): when the state is
specified, parameterized and not complete, raise the `_is_calculating`
guard, run the subclass `resolve` writes, then (only on normal return)
lower the guard and record the reported completeness.  A raised exception
propagates with the guard still up, exactly as in the source. -/
def resolveF (R : Resolver) (PF : List String) :
    Nat → TState → Option (TState × ROut)
  | fuel, st =>
    if _is_self_specified st && _is_self_parameterized PF st
        && !st.isComplete then
      let st1 : TState :=
        { st with isCalculating := true,
                  trace := st.trace ++ [Ev.rcall st.isCalculating] }
      match writesF R PF fuel st1 R.writes with
      | none => none
      | some (st2, Flow.raised) => some (st2, ROut.raised)
      | some (st2, Flow.done) =>
        match R.outcome with
        | none => some (st2, ROut.raised)
        | some b =>
            some ({ st2 with isCalculating := false, isComplete := b },
                  ROut.ret b)
    else
      some (st, ROut.ret false)
termination_by fuel st => (fuel, 2, 0)

/-- The sequence of attribute writes `resolve` performs; each one re-enters
`__setattr__`, i.e. `_dimensionalize` followed by `_smart_setattr_`. -/
def writesF (R : Resolver) (PF : List String) :
    Nat → TState → List (String × PyVal) → Option (TState × Flow)
  | _, st, [] => some (st, Flow.done)
  | fuel, st, (n, v) :: rest =>
    match _dimensionalize n v with
    | none => some (st, Flow.raised)
    | some v2 =>
      match setattrF R PF fuel st n v2 with
      | none => none
      | some (st2, Flow.raised) => some (st2, Flow.raised)
      | some (st2, Flow.done) => writesF R PF fuel st2 rest
termination_by fuel st ws => (fuel, 1, ws.length + 1)

end

/-- `ThermodynamicState.__setattr__` in tracked mode: dimensionalize (which
may raise before any mutation), then run the smart setter. -/
def py_setattr (R : Resolver) (PF : List String) (fuel : Nat) (st : TState)
    (name : String) (value : PyVal) : Option (TState × Flow) :=
  match _dimensionalize name value with
  | none => some (st, Flow.raised)
  | some v2 => setattrF R PF fuel st name v2

/-- `ThermodynamicState.swap_input_vars` (lines 85-95): `none` models the
raised `ValueError`, in which case the object is untouched. -/
def swap_input_vars (st : TState) (input_var state_var : String) :
    Option TState :=
  if input_var ∈ st.inputVars ∧ state_var ∉ st.inputVars then
    some { st with inputVars := (st.inputVars.erase input_var) ++ [state_var] }
  else
    Option.none

/-- One caller-level operation on a tracked state. -/
inductive Op where
  | set (name : String) (value : PyVal)
  | swap (a b : String)
deriving DecidableEq, Repr

/-- Run a sequence of caller operations.  A `ValueError` from an invalid
swap leaves the object unchanged and the caller may continue; a
fuel-exhausted write (never reachable) aborts with `none`. -/
def runOps (R : Resolver) (PF : List String) : TState → List Op → Option TState
  | st, [] => some st
  | st, Op.set n v :: rest =>
    match py_setattr R PF 1 st n v with
    | none => Option.none
    | some (st2, _) => runOps R PF st2 rest
  | st, Op.swap a b :: rest =>
    match swap_input_vars st a b with
    | some st2 => runOps R PF st2 rest
    | none => runOps R PF st rest

/-! ## Delta between two states -/

/-- Modelled from the spec: the derived read-only quantity `Pv` is not
defined under `src/` (only `delta` and `report` reference it; the cached
property comes from a subclass).  Per the spec it is the product of
pressure and specific volume expressed in the default energy unit; it is
computable exactly when both `P` and `v` hold pressure- and
molar-volume-dimensioned quantities. -/
def Pv (st : TState) : Option ℚ :=
  match getA st.attrs "P", getA st.attrs "v" with
  | PyVal.qty p up, PyVal.qty w uv =>
      if up.dim = Dim.pressure ∧ uv.dim = Dim.molarVolume then
        some ((p * up.scale) * (w * uv.scale) * 1000000)
      else
        Option.none
  | _, _ => Option.none

/-- Pint subtraction `val2 - val1` as used by `delta`: quantities convert
the right operand into the left operand's unit, raw numbers subtract as
floats; any other combination (or a dimensionality mismatch) raises. -/
def pySub (v2 v1 : PyVal) : Option (ℚ × PintUnit) :=
  match v2, v1 with
  | PyVal.qty m2 u2, PyVal.qty m1 u1 =>
      (uconv m1 u1 u2).map (fun m1c => (m2 - m1c, u2))
  | PyVal.num a, PyVal.num b => some (a - b, uDimless)
  | _, _ => Option.none

/-- The per-field loop of `delta` over a given field list: a field
contributes `other - self` when both states hold a value for it and is
omitted otherwise; a failing subtraction aborts (raises). -/
def deltaBase (s1 s2 : TState) :
    List String → Option (List (String × ℚ × PintUnit))
  | [] => some []
  | p :: rest =>
    let v1 := getA s1.attrs p
    let v2 := getA s2.attrs p
    if v1 = PyVal.none ∨ v2 = PyVal.none then
      deltaBase s1 s2 rest
    else
      match pySub v2 v1 with
      | none => Option.none
      | some mu => (deltaBase s1 s2 rest).map (fun t => (p, mu) :: t)

/-- `ThermodynamicState.delta` (lines 178-187): the per-field differences
over `_STATE_VAR_FIELDS` plus the difference of the derived `Pv` quantity
(`other.Pv - self.Pv`, in the default energy unit). -/
def delta (s1 s2 : TState) : Option (List (String × ℚ × PintUnit)) :=
  match deltaBase s1 s2 _STATE_VAR_FIELDS, Pv s1, Pv s2 with
  | some base, some a, some b => some (base ++ [("Pv", b - a, uJMol)])
  | _, _, _ => Option.none

/-- Closed form of `delta s1 s2` for states whose populated state-variable
fields all carry their default units: each field present in both states
contributes the magnitude difference `other - self` in the field's default
unit, absent fields are omitted, and the `Pv` difference is appended. -/
def deltaExplicit (s1 s2 : TState) (pv1 pv2 : ℚ) :
    List (String × ℚ × PintUnit) :=
  (_STATE_VAR_FIELDS.filterMap (fun p =>
    match getA s1.attrs p, getA s2.attrs p with
    | PyVal.qty m1 _, PyVal.qty m2 _ =>
        some (p, m2 - m1, get_default_unit p)
    | _, _ => Option.none)) ++ [("Pv", pv2 - pv1, uJMol)]

/-- Negate every difference in a delta mapping. -/
def negEntries (d : List (String × ℚ × PintUnit)) :
    List (String × ℚ × PintUnit) :=
  d.map (fun t => (t.1, -t.2.1, t.2.2))

/-- A state stores only default-unit quantities (or `None`) in its
state-variable fields; every tracked-mode state has this shape because
`_dimensionalize` normalizes each stored value. -/
def defaultUnitsOnly (st : TState) : Bool :=
  _STATE_VAR_FIELDS.all (fun p =>
    match getA st.attrs p with
    | PyVal.none => true
    | PyVal.qty _ u => decide (u = get_default_unit p)
    | _ => false)

/-! ## Basic lemmas about the write-protocol primitives -/

@[simp]
theorem blank_isCalculating (st : TState) :
    (_blank_computed_state_vars st).isCalculating = st.isCalculating := rfl

@[simp]
theorem blank_inputVars (st : TState) :
    (_blank_computed_state_vars st).inputVars = st.inputVars := rfl

@[simp]
theorem invalidate_isCalculating (st : TState) :
    (_invalidate st).isCalculating = st.isCalculating := rfl

@[simp]
theorem invalidate_inputVars (st : TState) :
    (_invalidate st).inputVars = st.inputVars := rfl

@[simp]
theorem invalidate_isComplete (st : TState) :
    (_invalidate st).isComplete = false := rfl

@[simp]
theorem invalidate_trace (st : TState) :
    (_invalidate st).trace = st.trace ++ [Ev.inval] := rfl

@[simp]
theorem flags_inputVars (PF : List String) (st : TState) :
    (flags_phase PF st).inputVars = st.inputVars := rfl

@[simp]
theorem flags_attrs (PF : List String) (st : TState) :
    (flags_phase PF st).attrs = st.attrs := rfl

@[simp]
theorem flags_isCalculating (PF : List String) (st : TState) :
    (flags_phase PF st).isCalculating = st.isCalculating := rfl

@[simp]
theorem flags_isComplete (PF : List String) (st : TState) :
    (flags_phase PF st).isComplete = st.isComplete := rfl

@[simp]
theorem flags_trace (PF : List String) (st : TState) :
    (flags_phase PF st).trace = st.trace := rfl

theorem ite_invalidate_inputVars (c : Prop) [Decidable c] (st : TState) :
    (if c then _invalidate st else st).inputVars = st.inputVars := by
  split <;> rfl

theorem ite_invalidate_isCalculating (c : Prop) [Decidable c] (st : TState) :
    (if c then _invalidate st else st).isCalculating = st.isCalculating := by
  split <;> rfl

theorem set_state_var_isCalculating (st : TState) (n : String) (v : PyVal) :
    (_set_state_var st n v).isCalculating = st.isCalculating := by
  unfold _set_state_var
  exact ite_invalidate_isCalculating _ _

theorem set_param_isCalculating (st : TState) (n : String) (v : PyVal) :
    (_set_parameter st n v).isCalculating = st.isCalculating := by
  unfold _set_parameter
  split
  · dsimp only
    split <;> rfl
  · rfl

theorem set_param_inputVars (st : TState) (n : String) (v : PyVal) :
    (_set_parameter st n v).inputVars = st.inputVars := by
  unfold _set_parameter
  split
  · dsimp only
    split <;> rfl
  · rfl

/-- Evolution of the recorded input list under one state-variable write:
either unchanged, or the written name is appended because fewer than two
inputs were recorded and it was not already among them. -/
theorem set_state_var_inputs (st : TState) (n : String) (v : PyVal) :
    (_set_state_var st n v).inputVars = st.inputVars ∨
    ((_set_state_var st n v).inputVars = st.inputVars ++ [n] ∧
      st.inputVars.length < 2 ∧ n ∉ st.inputVars) := by
  unfold _set_state_var
  rw [ite_invalidate_inputVars]
  by_cases h : st.inputVars.length < 2 ∧ n ∉ st.inputVars
  · right
    simp [h]
  · left
    simp [h]

theorem store_phase_isCalculating (PF : List String) (st : TState)
    (n : String) (v : PyVal) :
    (store_phase PF st n v).isCalculating = st.isCalculating := by
  unfold store_phase
  split
  · exact set_param_isCalculating st n v
  · exact set_state_var_isCalculating st n v

theorem store_phase_inputs (PF : List String) (st : TState) (n : String)
    (v : PyVal) :
    (store_phase PF st n v).inputVars = st.inputVars ∨
    ((store_phase PF st n v).inputVars = st.inputVars ++ [n] ∧
      st.inputVars.length < 2 ∧ n ∉ st.inputVars) := by
  unfold store_phase
  split
  · left
    exact set_param_inputVars st n v
  · exact set_state_var_inputs st n v

/-! ## Guarded closed forms of the recursive protocol

While `resolve` is running, `_is_calculating` is raised, so
`_smart_post_init` never re-enters `smart_resolve`; the following
non-recursive functions are proved to agree with the fuel-indexed
semantics, which also shows the recursion never consumes more than one
unit of fuel. -/

/-- Behaviour of `_smart_setattr_` when the `_is_calculating` guard is up:
the store and flag phases run, the resolution attempt does not. -/
def innerSet (PF : List String) (st : TState) (name : String)
    (value : PyVal) : TState :=
  if is_none_or_empty value then st
  else if name ∉ _STATE_VAR_FIELDS ∧ name ∉ PF then
    { st with attrs := setA st.attrs name value }
  else flags_phase PF (store_phase PF st name value)

/-- The writes `resolve` performs, each through `__setattr__` with the
guard up; a dimensionality error raises with the object as mutated so
far. -/
def innerWrites (PF : List String) :
    TState → List (String × PyVal) → TState × Flow
  | st, [] => (st, Flow.done)
  | st, (n, v) :: rest =>
    match _dimensionalize n v with
    | none => (st, Flow.raised)
    | some v2 => innerWrites PF (innerSet PF st n v2) rest

/-- Closed form of `smart_resolve`. -/
def resolveRun (R : Resolver) (PF : List String) (st : TState) :
    TState × ROut :=
  if _is_self_specified st && _is_self_parameterized PF st
      && !st.isComplete then
    let st1 : TState :=
      { st with isCalculating := true,
                trace := st.trace ++ [Ev.rcall st.isCalculating] }
    match innerWrites PF st1 R.writes with
    | (st2, Flow.raised) => (st2, ROut.raised)
    | (st2, Flow.done) =>
      match R.outcome with
      | none => (st2, ROut.raised)
      | some b =>
          ({ st2 with isCalculating := false, isComplete := b }, ROut.ret b)
  else
    (st, ROut.ret false)

/-- Closed form of a tracked-mode `_smart_setattr_` call made from outside
a resolution. -/
def topSet (R : Resolver) (PF : List String) (st : TState) (name : String)
    (value : PyVal) : TState × Flow :=
  if is_none_or_empty value then (st, Flow.done)
  else if name ∉ _STATE_VAR_FIELDS ∧ name ∉ PF then
    ({ st with attrs := setA st.attrs name value }, Flow.done)
  else
    let st2 := flags_phase PF (store_phase PF st name value)
    if st2.isCalculating then (st2, Flow.done)
    else
      match resolveRun R PF st2 with
      | (st3, ROut.raised) => (st3, Flow.raised)
      | (st3, ROut.ret b) => ({ st3 with isComplete := b }, Flow.done)

theorem innerSet_isCalculating (PF : List String) (st : TState) (n : String)
    (v : PyVal) : (innerSet PF st n v).isCalculating = st.isCalculating := by
  unfold innerSet
  split
  · rfl
  split
  · rfl
  · rw [flags_isCalculating, store_phase_isCalculating]

/-- With the guard up, one `_smart_setattr_` call is exactly `innerSet` and
returns normally, for any fuel. -/
theorem setattrF_calc (R : Resolver) (PF : List String) (fuel : Nat)
    (st : TState) (n : String) (v : PyVal) (h : st.isCalculating = true) :
    setattrF R PF fuel st n v = some (innerSet PF st n v, Flow.done) := by
  rw [setattrF, innerSet]
  split
  · rfl
  split
  · rfl
  · have hc : (flags_phase PF (store_phase PF st n v)).isCalculating = true := by
      rw [flags_isCalculating, store_phase_isCalculating, h]
    simp only [hc, if_true]

/-- With the guard up, the whole write sequence of `resolve` is exactly
`innerWrites`, for any fuel. -/
theorem writesF_calc (R : Resolver) (PF : List String) (fuel : Nat)
    (ws : List (String × PyVal)) (st : TState)
    (h : st.isCalculating = true) :
    writesF R PF fuel st ws = some (innerWrites PF st ws) := by
  induction ws generalizing st with
  | nil => rw [writesF, innerWrites]
  | cons hd tl ih =>
    obtain ⟨n, v⟩ := hd
    rw [writesF, innerWrites]
    cases hdim : _dimensionalize n v with
    | none => rfl
    | some v2 =>
      dsimp only
      rw [setattrF_calc R PF fuel st n v2 h]
      exact ih _ (by rw [innerSet_isCalculating, h])

/-- `smart_resolve` agrees with its closed form at every fuel. -/
theorem resolveF_eq (R : Resolver) (PF : List String) (fuel : Nat)
    (st : TState) : resolveF R PF fuel st = some (resolveRun R PF st) := by
  rw [resolveF, resolveRun]
  split
  · dsimp only
    rw [writesF_calc R PF fuel R.writes _ rfl]
    cases innerWrites PF
        { st with isCalculating := true,
                  trace := st.trace ++ [Ev.rcall st.isCalculating] }
        R.writes with
    | mk st2 fl =>
      cases fl with
      | done =>
        cases R.outcome with
        | none => rfl
        | some b => rfl
      | raised => rfl
  · rfl

/-- A tracked-mode write made from outside a resolution agrees with its
closed form whenever the fuel is positive: the recursion through
`smart_resolve` never needs depth greater than one, i.e. the
`_is_calculating` guard keeps `resolve` from re-entering. -/
theorem setattrF_eq (R : Resolver) (PF : List String) (fuel : Nat)
    (st : TState) (n : String) (v : PyVal) :
    setattrF R PF (fuel + 1) st n v = some (topSet R PF st n v) := by
  rw [setattrF, topSet]
  split
  · rfl
  split
  · rfl
  · dsimp only
    by_cases hc : (flags_phase PF (store_phase PF st n v)).isCalculating = true
    · rw [if_pos hc, if_pos hc]
    · rw [if_neg hc, if_neg hc]
      rw [resolveF_eq]
      cases resolveRun R PF (flags_phase PF (store_phase PF st n v)) with
      | mk st3 r =>
        cases r with
        | ret b => rfl
        | raised => rfl

/-- Closed form of the full `__setattr__` from outside a resolution. -/
def pyTop (R : Resolver) (PF : List String) (st : TState) (name : String)
    (value : PyVal) : TState × Flow :=
  match _dimensionalize name value with
  | none => (st, Flow.raised)
  | some v2 => topSet R PF st name v2

theorem py_setattr_eq (R : Resolver) (PF : List String) (fuel : Nat)
    (st : TState) (n : String) (v : PyVal) :
    py_setattr R PF (fuel + 1) st n v = some (pyTop R PF st n v) := by
  rw [py_setattr, pyTop]
  cases _dimensionalize n v with
  | none => rfl
  | some v2 => exact setattrF_eq R PF fuel st n v2

/-! ## Attribute-store lemmas -/

theorem getA_setA_self (a : List (String × PyVal)) (n : String) (v : PyVal) :
    getA (setA a n v) n = v := by
  induction a with
  | nil => simp [setA, getA]
  | cons hd tl ih =>
    obtain ⟨m, w⟩ := hd
    by_cases h : m = n
    · simp [setA, getA, h]
    · simp [setA, getA, h, ih]

theorem getA_setA_ne (a : List (String × PyVal)) (n m : String) (v : PyVal)
    (h : m ≠ n) : getA (setA a n v) m = getA a m := by
  induction a with
  | nil =>
    simp only [setA, getA]
    rw [if_neg (fun hh => h hh.symm)]
  | cons hd tl ih =>
    obtain ⟨k, w⟩ := hd
    by_cases hk : k = n
    · subst hk
      simp [setA, getA, Ne.symm h]
    · simp [setA, getA, hk, ih]

theorem getA_foldl_blank (l : List String) (inputs : List String)
    (a : List (String × PyVal)) (p : String) :
    getA (l.foldl (fun a q => if q ∈ inputs then a else setA a q PyVal.none) a) p
      = if p ∈ l ∧ p ∉ inputs then PyVal.none else getA a p := by
  induction l generalizing a with
  | nil => simp
  | cons q rest ih =>
    rw [List.foldl_cons, ih]
    by_cases hql : p ∈ rest ∧ p ∉ inputs
    · simp only [hql, if_true]
      have : p ∈ q :: rest ∧ p ∉ inputs := ⟨List.mem_cons_of_mem _ hql.1, hql.2⟩
      simp [this]
    · simp only [hql, if_false]
      by_cases hpq : p = q
      · subst hpq
        by_cases hpi : p ∈ inputs
        · have : ¬(p ∈ p :: rest ∧ p ∉ inputs) := by simp [hpi]
          simp [hpi, this]
        · have h1 : p ∈ p :: rest ∧ p ∉ inputs := ⟨List.mem_cons_self _ _, hpi⟩
          simp [hpi, h1, getA_setA_self]
      · have hcon : ¬((p = q ∨ p ∈ rest) ∧ p ∉ inputs) := by
          intro hcon
          rcases hcon.1 with h | h
          · exact hpq h
          · exact hql ⟨h, hcon.2⟩
        by_cases hqi : q ∈ inputs
        · simp [hqi, hcon]
        · simp [hqi, hcon, getA_setA_ne _ _ _ _ hpq]

theorem getA_blankAttrs (a : List (String × PyVal)) (inputs : List String)
    (p : String) :
    getA (blankAttrs a inputs) p
      = if p ∈ _STATE_VAR_FIELDS ∧ p ∉ inputs then PyVal.none
        else getA a p :=
  getA_foldl_blank _STATE_VAR_FIELDS inputs a p

/-! ## Trace evolution -/

/-- Number of resolve invocations recorded in a trace. -/
def rcalls (tr : List Ev) : Nat :=
  tr.countP (fun e => match e with | Ev.rcall _ => true | _ => false)

/-- The new events between two protocol states are invalidations and
resolve invocations made with the guard down. -/
def newEvOK (st st' : TState) : Prop :=
  ∃ l, st'.trace = st.trace ++ l ∧
    ∀ ev ∈ l, ev = Ev.inval ∨ ev = Ev.rcall false

/-- The new events are invalidations only. -/
def newEvInval (st st' : TState) : Prop :=
  ∃ l, st'.trace = st.trace ++ l ∧ ∀ ev ∈ l, ev = Ev.inval

theorem newEvInval_refl (st : TState) : newEvInval st st :=
  ⟨[], by simp⟩

theorem newEvInval_trans {s1 s2 s3 : TState} (h1 : newEvInval s1 s2)
    (h2 : newEvInval s2 s3) : newEvInval s1 s3 := by
  obtain ⟨l1, e1, m1⟩ := h1
  obtain ⟨l2, e2, m2⟩ := h2
  refine ⟨l1 ++ l2, by rw [e2, e1, List.append_assoc], ?_⟩
  intro ev hev
  rcases List.mem_append.mp hev with h | h
  · exact m1 ev h
  · exact m2 ev h

theorem newEvInval_rcalls {s1 s2 : TState} (h : newEvInval s1 s2) :
    rcalls s2.trace = rcalls s1.trace := by
  obtain ⟨l, e, m⟩ := h
  rw [e, rcalls, rcalls, List.countP_append]
  have : l.countP (fun e => match e with | Ev.rcall _ => true | _ => false) = 0 := by
    rw [List.countP_eq_zero]
    intro ev hev
    rw [m ev hev]
    decide
  omega

theorem ite_invalidate_newEvInval (c : Prop) [Decidable c] (st : TState) :
    newEvInval st (if c then _invalidate st else st) := by
  split
  · exact ⟨[Ev.inval], rfl, by simp⟩
  · exact newEvInval_refl st

theorem set_state_var_newEvInval (st : TState) (n : String) (v : PyVal) :
    newEvInval st (_set_state_var st n v) := by
  unfold _set_state_var
  exact ite_invalidate_newEvInval _ _

theorem set_param_newEvInval (st : TState) (n : String) (v : PyVal) :
    newEvInval st (_set_parameter st n v) := by
  unfold _set_parameter
  split
  · dsimp only
    split
    · exact ⟨[Ev.inval], rfl, by simp⟩
    · exact ⟨[Ev.inval], rfl, by simp⟩
  · exact ⟨[], by simp, by simp⟩

theorem store_phase_newEvInval (PF : List String) (st : TState) (n : String)
    (v : PyVal) : newEvInval st (store_phase PF st n v) := by
  unfold store_phase
  split
  · exact set_param_newEvInval st n v
  · exact set_state_var_newEvInval st n v

theorem flags_newEvInval (PF : List String) (st st0 : TState)
    (h : newEvInval st0 st) : newEvInval st0 (flags_phase PF st) := by
  obtain ⟨l, e, m⟩ := h
  exact ⟨l, by rw [flags_trace, e], m⟩

theorem innerSet_newEvInval (PF : List String) (st : TState) (n : String)
    (v : PyVal) : newEvInval st (innerSet PF st n v) := by
  unfold innerSet
  split
  · exact newEvInval_refl st
  split
  · exact ⟨[], by simp, by simp⟩
  · exact flags_newEvInval PF _ st (store_phase_newEvInval PF st n v)

theorem innerWrites_newEvInval (PF : List String)
    (ws : List (String × PyVal)) (st : TState) :
    newEvInval st (innerWrites PF st ws).1 := by
  induction ws generalizing st with
  | nil => exact newEvInval_refl st
  | cons hd tl ih =>
    obtain ⟨n, v⟩ := hd
    rw [innerWrites]
    cases _dimensionalize n v with
    | none => exact newEvInval_refl st
    | some v2 =>
      exact newEvInval_trans (innerSet_newEvInval PF st n v2) (ih _)

/-! ## Input-list evolution -/

/-- How the recorded input list can evolve across the protocol: it only
grows by appends, never beyond two entries, and once it holds two entries
it is frozen. -/
def InpExt (l l' : List String) : Prop :=
  l ⊆ l' ∧ (l.length ≤ 2 → l'.length ≤ 2) ∧ (l.length = 2 → l' = l)

theorem InpExt_refl (l : List String) : InpExt l l :=
  ⟨List.Subset.refl l, fun h => h, fun _ => rfl⟩

theorem InpExt_trans {l1 l2 l3 : List String} (h1 : InpExt l1 l2)
    (h2 : InpExt l2 l3) : InpExt l1 l3 := by
  refine ⟨h1.1.trans h2.1, fun h => h2.2.1 (h1.2.1 h), fun h => ?_⟩
  rw [h2.2.2, h1.2.2 h]
  rw [h1.2.2 h, h]

theorem set_state_var_InpExt (st : TState) (n : String) (v : PyVal) :
    InpExt st.inputVars (_set_state_var st n v).inputVars := by
  rcases set_state_var_inputs st n v with h | ⟨h, hlen, _⟩
  · rw [h]
    exact InpExt_refl _
  · rw [h]
    refine ⟨List.subset_append_left _ _, fun _ => ?_, fun h2 => ?_⟩
    · simp only [List.length_append, List.length_cons, List.length_nil]
      omega
    · omega

theorem store_phase_InpExt (PF : List String) (st : TState) (n : String)
    (v : PyVal) : InpExt st.inputVars (store_phase PF st n v).inputVars := by
  unfold store_phase
  split
  · rw [set_param_inputVars]
    exact InpExt_refl _
  · exact set_state_var_InpExt st n v

theorem innerSet_InpExt (PF : List String) (st : TState) (n : String)
    (v : PyVal) : InpExt st.inputVars (innerSet PF st n v).inputVars := by
  unfold innerSet
  split
  · exact InpExt_refl _
  split
  · exact InpExt_refl _
  · rw [flags_inputVars]
    exact store_phase_InpExt PF st n v

theorem innerWrites_InpExt (PF : List String) (ws : List (String × PyVal))
    (st : TState) : InpExt st.inputVars (innerWrites PF st ws).1.inputVars := by
  induction ws generalizing st with
  | nil => exact InpExt_refl _
  | cons hd tl ih =>
    obtain ⟨n, v⟩ := hd
    rw [innerWrites]
    cases _dimensionalize n v with
    | none => exact InpExt_refl _
    | some v2 => exact InpExt_trans (innerSet_InpExt PF st n v2) (ih _)

theorem resolveRun_InpExt (R : Resolver) (PF : List String) (st : TState) :
    InpExt st.inputVars (resolveRun R PF st).1.inputVars := by
  rw [resolveRun]
  split
  · dsimp only
    have h := innerWrites_InpExt PF R.writes
      { st with isCalculating := true,
                trace := st.trace ++ [Ev.rcall st.isCalculating] }
    rcases hw : innerWrites PF
        { st with isCalculating := true,
                  trace := st.trace ++ [Ev.rcall st.isCalculating] }
        R.writes with ⟨st2, fl⟩
    have h2 := h
    rw [hw] at h2
    cases fl with
    | raised => exact h2
    | done =>
      cases R.outcome with
      | none => exact h2
      | some b => exact h2
  · exact InpExt_refl _

theorem topSet_InpExt (R : Resolver) (PF : List String) (st : TState)
    (n : String) (v : PyVal) :
    InpExt st.inputVars (topSet R PF st n v).1.inputVars := by
  rw [topSet]
  split
  · exact InpExt_refl _
  split
  · exact InpExt_refl _
  · dsimp only
    split
    · rw [flags_inputVars]
      exact store_phase_InpExt PF st n v
    · have h1 : InpExt st.inputVars
          (flags_phase PF (store_phase PF st n v)).inputVars := by
        rw [flags_inputVars]
        exact store_phase_InpExt PF st n v
      have h2 := resolveRun_InpExt R PF (flags_phase PF (store_phase PF st n v))
      rcases hr : resolveRun R PF (flags_phase PF (store_phase PF st n v))
        with ⟨st3, r⟩
      rw [hr] at h2
      cases r with
      | raised => exact InpExt_trans h1 h2
      | ret b => exact InpExt_trans h1 h2

theorem pyTop_InpExt (R : Resolver) (PF : List String) (st : TState)
    (n : String) (v : PyVal) :
    InpExt st.inputVars (pyTop R PF st n v).1.inputVars := by
  rw [pyTop]
  cases _dimensionalize n v with
  | none => exact InpExt_refl _
  | some v2 => exact topSet_InpExt R PF st n v2

theorem swap_len {st st' : TState} {a b : String}
    (h : swap_input_vars st a b = some st') :
    st'.inputVars.length = st.inputVars.length := by
  unfold swap_input_vars at h
  split at h
  · rename_i hcond
    cases h
    simp only [List.length_append, List.length_cons, List.length_nil]
    rw [List.length_erase_of_mem hcond.1]
    have : 0 < st.inputVars.length := List.length_pos.mpr
      (List.ne_nil_of_mem hcond.1)
    omega
  · cases h

/-- Across any sequence of caller operations the recorded input list keeps
at most two entries. -/
theorem runOps_len (R : Resolver) (PF : List String) (ops : List Op)
    (st st' : TState) (h : runOps R PF st ops = some st')
    (hlen : st.inputVars.length ≤ 2) : st'.inputVars.length ≤ 2 := by
  induction ops generalizing st with
  | nil =>
    rw [runOps] at h
    cases h
    exact hlen
  | cons op rest ih =>
    cases op with
    | set n v =>
      rw [runOps] at h
      rw [show (1 : Nat) = 0 + 1 from rfl, py_setattr_eq] at h
      dsimp only at h
      exact ih _ h ((pyTop_InpExt R PF st n v).2.1 hlen)
    | swap a b =>
      rw [runOps] at h
      rcases hsw : swap_input_vars st a b with _ | st2
      · rw [hsw] at h
        exact ih _ h hlen
      · rw [hsw] at h
        refine ih _ h ?_
        rw [swap_len hsw]
        exact hlen

/-! ## Literal-fuel corollaries and an executable run form -/

theorem setattrF_one (R : Resolver) (PF : List String) (st : TState)
    (n : String) (v : PyVal) :
    setattrF R PF 1 st n v = some (topSet R PF st n v) :=
  setattrF_eq R PF 0 st n v

theorem py_setattr_one (R : Resolver) (PF : List String) (st : TState)
    (n : String) (v : PyVal) :
    py_setattr R PF 1 st n v = some (pyTop R PF st n v) :=
  py_setattr_eq R PF 0 st n v

/-- Structurally recursive form of `runOps` (kernel-computable). -/
def runPure (R : Resolver) (PF : List String) : TState → List Op → TState
  | st, [] => st
  | st, Op.set n v :: rest => runPure R PF (pyTop R PF st n v).1 rest
  | st, Op.swap a b :: rest =>
    match swap_input_vars st a b with
    | some st2 => runPure R PF st2 rest
    | none => runPure R PF st rest

theorem runOps_eq_runPure (R : Resolver) (PF : List String) (ops : List Op)
    (st : TState) : runOps R PF st ops = some (runPure R PF st ops) := by
  induction ops generalizing st with
  | nil => rw [runOps, runPure]
  | cons op rest ih =>
    cases op with
    | set n v =>
      rw [runOps, runPure, py_setattr_one]
      exact ih _
    | swap a b =>
      rw [runOps, runPure]
      cases swap_input_vars st a b with
      | none => exact ih _
      | some st2 => exact ih _

/-! ## Exact shapes of one state-variable store -/

/-- Writing a third distinct state variable while two inputs are recorded
only stores the value: the input list, flags and every other field are
untouched. -/
theorem set_state_var_third (st : TState) (n : String) (v : PyVal)
    (h2 : st.inputVars.length = 2) (hn : n ∉ st.inputVars) :
    _set_state_var st n v = { st with attrs := setA st.attrs n v } := by
  unfold _set_state_var
  dsimp only
  rw [if_neg (by omega : ¬(st.inputVars.length < 2 ∧ n ∉ st.inputVars))]
  rw [if_neg hn]

/-- Writing a fresh state variable while fewer than two inputs are recorded
appends it to the input list. -/
theorem set_state_var_append (st : TState) (n : String) (v : PyVal)
    (h1 : st.inputVars.length < 2) (hn : n ∉ st.inputVars) :
    (_set_state_var st n v).inputVars = st.inputVars ++ [n] := by
  unfold _set_state_var
  rw [ite_invalidate_inputVars]
  dsimp only
  rw [if_pos ⟨h1, hn⟩]

/-- Reassigning a recorded input stores the value and invalidates. -/
theorem set_state_var_reassign (st : TState) (n : String) (v : PyVal)
    (hmem : n ∈ st.inputVars) :
    _set_state_var st n v = _invalidate { st with attrs := setA st.attrs n v } := by
  unfold _set_state_var
  dsimp only
  rw [if_neg (show ¬(st.inputVars.length < 2 ∧ n ∉ st.inputVars) from
        fun hh => hh.2 hmem)]
  rw [if_pos hmem]

/-! ## The resolution attempt from outside a resolution -/

/-- When `smart_resolve`'s condition holds, exactly one resolve invocation
is recorded, and it happens with the guard down. -/
theorem resolveRun_pos (R : Resolver) (PF : List String) (st : TState)
    (hc : st.isCalculating = false)
    (h : (_is_self_specified st && _is_self_parameterized PF st
          && !st.isComplete) = true) :
    rcalls (resolveRun R PF st).1.trace = rcalls st.trace + 1 ∧
    (∀ b, Ev.rcall b ∈ (resolveRun R PF st).1.trace →
      Ev.rcall b ∈ st.trace ∨ b = false) := by
  rw [resolveRun, if_pos h]
  dsimp only
  have hinner := innerWrites_newEvInval PF R.writes
    { st with isCalculating := true,
              trace := st.trace ++ [Ev.rcall st.isCalculating] }
  rcases hw : innerWrites PF
      { st with isCalculating := true,
                trace := st.trace ++ [Ev.rcall st.isCalculating] }
      R.writes with ⟨st2, fl⟩
  rw [hw] at hinner
  obtain ⟨l, he, hm⟩ := hinner
  dsimp only at he
  have htr : st2.trace = st.trace ++ [Ev.rcall false] ++ l := by
    rw [he, hc]
  have hcount : rcalls st2.trace = rcalls st.trace + 1 := by
    rw [htr, rcalls, List.countP_append, List.countP_append]
    have hl : l.countP
        (fun e => match e with | Ev.rcall _ => true | _ => false) = 0 := by
      rw [List.countP_eq_zero]
      intro ev hev
      rw [hm ev hev]
      decide
    rw [hl]
    rfl
  have hmem : ∀ b, Ev.rcall b ∈ st2.trace →
      Ev.rcall b ∈ st.trace ∨ b = false := by
    intro b hb
    rw [htr] at hb
    rcases List.mem_append.mp hb with hb2 | hb2
    · rcases List.mem_append.mp hb2 with hb3 | hb3
      · exact Or.inl hb3
      · right
        have : Ev.rcall b = Ev.rcall false := List.mem_singleton.mp hb3
        injection this
    · have := hm _ hb2
      cases this
  cases fl with
  | raised => exact ⟨hcount, hmem⟩
  | done =>
    cases R.outcome with
    | none => exact ⟨hcount, hmem⟩
    | some b => exact ⟨hcount, hmem⟩

/-- When the condition fails, `smart_resolve` does nothing and returns
`False` (which `_smart_post_init` then records into the complete flag). -/
theorem resolveRun_neg (R : Resolver) (PF : List String) (st : TState)
    (h : ¬((_is_self_specified st && _is_self_parameterized PF st
          && !st.isComplete) = true)) :
    resolveRun R PF st = (st, ROut.ret false) := by
  rw [resolveRun, if_neg h]

theorem newEvInval_rcall_mem {s1 s2 : TState} (h : newEvInval s1 s2)
    {b : Bool} (hb : Ev.rcall b ∈ s2.trace) : Ev.rcall b ∈ s1.trace := by
  obtain ⟨l, he, hm⟩ := h
  rw [he] at hb
  rcases List.mem_append.mp hb with h2 | h2
  · exact h2
  · have := hm _ h2
    cases this

@[simp]
theorem invalidate_attrs (st : TState) :
    (_invalidate st).attrs = blankAttrs st.attrs st.inputVars := rfl

/-- A standard resolver used by concrete runs: given two inputs it writes
the remaining primary variables and reports success (an ideal-gas-style
strategy in the sense of the spec scenarios). -/
def okResolver : Resolver :=
  { writes := [("v", PyVal.num 7), ("s", PyVal.num 1),
               ("h", PyVal.num 2), ("u", PyVal.num 3)],
    outcome := some true }

/-! ## Claim C2 -/

/-- C2: in tracked mode the input-variable list never exceeds two names
under any sequence of attribute assignments and swaps, and writing a third
distinct primary state variable while two inputs are recorded stores the
value without touching the input list (or anything else). -/
theorem C2_input_cap (R : Resolver) (PF : List String) (ops : List Op)
    (st' st2 : TState) (name : String) (v : PyVal)
    (h : runOps R PF initState ops = some st')
    (h2 : st2.inputVars.length = 2) (hn : name ∉ st2.inputVars) :
    st'.inputVars.length ≤ 2 ∧
    _set_state_var st2 name v = { st2 with attrs := setA st2.attrs name v } :=
  ⟨runOps_len R PF ops initState st' h (by decide),
   set_state_var_third st2 name v h2 hn⟩

def c2state : TState :=
  { attrs := [("T", PyVal.qty 300 uK), ("P", PyVal.qty 2 uMPa)],
    inputVars := ["T", "P"], isSpecified := true }

def c2ops : List Op :=
  [Op.set "T" (PyVal.num 300), Op.set "P" (PyVal.num 2),
   Op.swap "T" "v", Op.set "h" (PyVal.num 5)]

theorem C2_input_cap_witness :
    (runPure okResolver [] initState c2ops).inputVars.length ≤ 2 ∧
    _set_state_var c2state "v" (PyVal.num 5)
      = { c2state with attrs := setA c2state.attrs "v" (PyVal.num 5) } := by
  have h := C2_input_cap okResolver [] c2ops
    (runPure okResolver [] initState c2ops) c2state "v" (PyVal.num 5)
    (runOps_eq_runPure okResolver [] c2ops initState) (by decide) (by decide)
  exact h

/-! ## Claim C3 -/

/-- C3: reassigning a primary state variable that is one of the recorded
inputs of a complete two-input state invalidates it: the input list is
retained, the complete flag drops, the written input takes the new value,
the other input keeps its value, and every state variable outside the
input list is cleared to `None`.  (The write protocol then immediately
attempts a fresh resolution, see C1.) -/
theorem C3_invalidation (st : TState) (name other p : String) (v : PyVal)
    (h2 : st.inputVars.length = 2) (hcomp : st.isComplete = true)
    (hmem : name ∈ st.inputVars) (ho : other ∈ st.inputVars)
    (hne : other ≠ name) (hp : p ∈ _STATE_VAR_FIELDS)
    (hpn : p ∉ st.inputVars) :
    (_set_state_var st name v).inputVars = st.inputVars ∧
    (_set_state_var st name v).isComplete = false ∧
    getA (_set_state_var st name v).attrs name = v ∧
    getA (_set_state_var st name v).attrs other = getA st.attrs other ∧
    getA (_set_state_var st name v).attrs p = PyVal.none := by
  rw [set_state_var_reassign st name v hmem]
  refine ⟨rfl, rfl, ?_, ?_, ?_⟩
  · rw [invalidate_attrs, getA_blankAttrs]
    rw [if_neg (fun hcon => hcon.2 hmem)]
    exact getA_setA_self st.attrs name v
  · rw [invalidate_attrs, getA_blankAttrs]
    rw [if_neg (fun hcon => hcon.2 ho)]
    exact getA_setA_ne st.attrs name other v hne
  · rw [invalidate_attrs, getA_blankAttrs]
    rw [if_pos ⟨hp, hpn⟩]

def c3state : TState :=
  { attrs := [("T", PyVal.qty 300 uK), ("P", PyVal.qty 2 uMPa),
              ("v", PyVal.qty 5 uM3Mol), ("h", PyVal.qty 9 uJMol)],
    inputVars := ["T", "P"], isSpecified := true, isComplete := true }

theorem C3_invalidation_witness :
    (_set_state_var c3state "T" (PyVal.qty 350 uK)).inputVars = ["T", "P"] ∧
    (_set_state_var c3state "T" (PyVal.qty 350 uK)).isComplete = false ∧
    getA (_set_state_var c3state "T" (PyVal.qty 350 uK)).attrs "v"
      = PyVal.none := by
  have h := C3_invalidation c3state "T" "P" "v" (PyVal.qty 350 uK)
    (by decide) (by decide) (by decide) (by decide) (by decide) (by decide)
    (by decide)
  exact ⟨h.1, h.2.1, h.2.2.2.2⟩

/-! ## Claim C5 -/

/-- A resolver that raises an exception. -/
def raisingResolver : Resolver := { writes := [], outcome := Option.none }

/-- Specifying `T` then `P` against a resolver that raises: the second
write triggers the resolution. -/
def leakRun : Option (TState × Flow) :=
  match py_setattr raisingResolver [] 1 initState "T" (PyVal.num 300) with
  | some p => py_setattr raisingResolver [] 1 p.1 "P" (PyVal.num 2)
  | none => Option.none

/-- C5 (code bug): when the subclass `resolve` raises during an
attribute-write-triggered resolution, the exception propagates with the
`_is_calculating` guard still `True` — `smart_resolve` has no try/finally,
so the flag is not cleared back, contrary to the claim. -/
theorem C5_guard_leaked :
    leakRun.map (fun p => (p.2, p.1.isCalculating, p.1.isComplete))
      = some (Flow.raised, true, false) := by
  rw [leakRun]
  simp only [py_setattr_one]
  decide

/-! ## Claim C6 -/

/-- C6: assigning `None` or an empty container to an already-populated
field is a silent no-op: the returned state is the input state itself, so
the field value, input list, every flag and the event trace are unchanged
and no resolution is attempted. -/
theorem C6_none_write_noop (R : Resolver) (PF : List String) (fuel : Nat)
    (st : TState) (name : String) (value : PyVal)
    (hv : is_none_or_empty value = true)
    (hp : getA st.attrs name ≠ PyVal.none) :
    py_setattr R PF fuel st name value = some (st, Flow.done) := by
  have hd : _dimensionalize name value = some value := by
    cases value with
    | none => rfl
    | emptyList => rfl
    | emptyDict => rfl
    | emptyArr => rfl
    | num q => simp [is_none_or_empty] at hv
    | qty m u => simp [is_none_or_empty] at hv
    | obj t => simp [is_none_or_empty] at hv
  rw [py_setattr, hd]
  dsimp only
  rw [setattrF, if_pos hv]

def c6state : TState :=
  { attrs := [("T", PyVal.qty 300 uK)], inputVars := ["T"] }

theorem C6_none_write_noop_witness :
    py_setattr okResolver [] 1 c6state "T" PyVal.emptyList
      = some (c6state, Flow.done) :=
  C6_none_write_noop okResolver [] 1 c6state "T" PyVal.emptyList
    (by decide) (by decide)

/-! ## Claim C7 -/

/-- C7: `swap_input_vars A B` succeeds exactly when `A` is currently an
input and `B` is not; on success `B` is an input and `A` no longer is, the
list length is unchanged, and repeating the same swap fails (the failure
raising a `ValueError` with the object untouched). -/
theorem C7_swap (st st1 : TState) (A B : String)
    (hnd : st.inputVars.Nodup) :
    ((swap_input_vars st A B).isSome = true ↔
      (A ∈ st.inputVars ∧ B ∉ st.inputVars)) ∧
    (swap_input_vars st A B = some st1 →
      B ∈ st1.inputVars ∧ A ∉ st1.inputVars ∧
      st1.inputVars.length = st.inputVars.length ∧
      swap_input_vars st1 A B = Option.none) := by
  constructor
  · unfold swap_input_vars
    split
    · rename_i hcond
      simp [hcond]
    · rename_i hcond
      simp [hcond]
  · intro h
    have hcond : A ∈ st.inputVars ∧ B ∉ st.inputVars := by
      by_contra hc
      unfold swap_input_vars at h
      rw [if_neg hc] at h
      cases h
    unfold swap_input_vars at h
    rw [if_pos hcond] at h
    have hAB : A ≠ B := fun hab => hcond.2 (hab ▸ hcond.1)
    cases h
    have hnotA : A ∉ st.inputVars.erase A ++ [B] := by
      intro hA
      rcases List.mem_append.mp hA with h1 | h1
      · exact hnd.not_mem_erase h1
      · exact hAB (List.mem_singleton.mp h1)
    refine ⟨?_, hnotA, ?_, ?_⟩
    · exact List.mem_append.mpr (Or.inr (List.mem_singleton.mpr rfl))
    · rw [List.length_append, List.length_erase_of_mem hcond.1]
      have hlen : 0 < st.inputVars.length :=
        List.length_pos.mpr (List.ne_nil_of_mem hcond.1)
      simp only [List.length_cons, List.length_nil]
      omega
    · unfold swap_input_vars
      rw [if_neg (fun hcon => hnotA hcon.1)]

def c7state : TState :=
  { attrs := [("T", PyVal.qty 300 uK), ("P", PyVal.qty 2 uMPa)],
    inputVars := ["T", "P"], isSpecified := true }

def c7state2 : TState :=
  { attrs := [("T", PyVal.qty 300 uK), ("P", PyVal.qty 2 uMPa)],
    inputVars := ["P", "v"], isSpecified := true }

theorem C7_swap_witness :
    (swap_input_vars c7state "T" "v").isSome = true ∧
    swap_input_vars c7state2 "T" "v" = Option.none := by
  have h := C7_swap c7state c7state2 "T" "v" (by decide)
  refine ⟨h.1.mpr ⟨by decide, by decide⟩, ?_⟩
  exact (h.2 (by decide)).2.2.2

/-! ## Claim C10 -/

/-- C10: `swap_input_vars` validates nothing about the incoming name: for
any string `B` not currently an input and any recorded input `A` the swap
succeeds, and `B` then occupies one of the input slots — whether or not
`B` is a recognized state variable or holds a value is never consulted. -/
theorem C10_swap_unvalidated (st : TState) (A B : String)
    (hA : A ∈ st.inputVars) (hB : B ∉ st.inputVars) :
    swap_input_vars st A B =
      some { st with inputVars := st.inputVars.erase A ++ [B] } ∧
    B ∈ (st.inputVars.erase A ++ [B]) ∧
    (st.inputVars.erase A ++ [B]).length = st.inputVars.length := by
  refine ⟨?_, ?_, ?_⟩
  · unfold swap_input_vars
    rw [if_pos ⟨hA, hB⟩]
  · exact List.mem_append.mpr (Or.inr (List.mem_singleton.mpr rfl))
  · rw [List.length_append, List.length_erase_of_mem hA]
    have hlen : 0 < st.inputVars.length :=
      List.length_pos.mpr (List.ne_nil_of_mem hA)
    simp only [List.length_cons, List.length_nil]
    omega

def c10state : TState :=
  { attrs := [("T", PyVal.qty 300 uK), ("P", PyVal.qty 2 uMPa)],
    inputVars := ["T", "P"], isSpecified := true }

theorem C10_swap_unvalidated_witness :
    swap_input_vars c10state "T" "bogus"
      = some { c10state with inputVars := ["P", "bogus"] } ∧
    "bogus" ∉ _STATE_VAR_FIELDS ∧
    getA c10state.attrs "bogus" = PyVal.none := by
  have h := C10_swap_unvalidated c10state "T" "bogus" (by decide) (by decide)
  exact ⟨h.1, by decide, by decide⟩

/-! ## Claims C1 and C4 -/

@[simp]
theorem completeUpd_trace (st : TState) (b : Bool) :
    ({ st with isComplete := b } : TState).trace = st.trace := rfl

@[simp]
theorem completeUpd_inputVars (st : TState) (b : Bool) :
    ({ st with isComplete := b } : TState).inputVars = st.inputVars := rfl

@[simp]
theorem completeUpd_isComplete (st : TState) (b : Bool) :
    ({ st with isComplete := b } : TState).isComplete = b := rfl

/-- Between the store/flag phases and the final state of one guarded-down
write, the input list evolves only by the `InpExt` discipline. -/
theorem topSet_store_InpExt (R : Resolver) (PF : List String) (st : TState)
    (n : String) (v : PyVal) (hv : is_none_or_empty v = false)
    (hsv : n ∈ _STATE_VAR_FIELDS ∨ n ∈ PF) :
    InpExt (store_phase PF st n v).inputVars
      (topSet R PF st n v).1.inputVars := by
  rw [topSet]
  rw [if_neg (show ¬(is_none_or_empty v = true) by simp [hv])]
  rw [if_neg (show ¬(n ∉ _STATE_VAR_FIELDS ∧ n ∉ PF) from
        fun hcon => by rcases hsv with h2 | h2
                       exacts [hcon.1 h2, hcon.2 h2])]
  dsimp only
  split
  · rw [flags_inputVars]
    exact InpExt_refl _
  · have h2 := resolveRun_InpExt R PF (flags_phase PF (store_phase PF st n v))
    rcases hr : resolveRun R PF (flags_phase PF (store_phase PF st n v))
      with ⟨st3, r⟩
    rw [hr] at h2
    rw [flags_inputVars] at h2
    cases r with
    | raised => exact h2
    | ret b => exact h2

/-- C4 (amended): the vapor fraction `x` is treated by the input tracker
exactly like the six primary variables: writing `x` while two inputs are
recorded leaves the input list unchanged, but writing `x` while fewer than
two inputs are recorded puts `x` into the input list. -/
theorem C4_x_tracking (R : Resolver) (PF : List String) (fuel : Nat)
    (st st' : TState) (value : PyVal) (fl : Flow)
    (hv : is_none_or_empty value = false) (hpf : "x" ∉ PF)
    (h : setattrF R PF (fuel + 1) st "x" value = some (st', fl)) :
    (st.inputVars.length = 2 → "x" ∉ st.inputVars →
      st'.inputVars = st.inputVars) ∧
    (st.inputVars.length < 2 → "x" ∈ st'.inputVars) := by
  rw [setattrF_eq] at h
  injection h with h
  have hx : ("x" : String) ∈ _STATE_VAR_FIELDS := by decide
  have hst : st' = (topSet R PF st "x" value).1 := by rw [h]
  have hInp := topSet_store_InpExt R PF st "x" value hv (Or.inl hx)
  have hstore : store_phase PF st "x" value = _set_state_var st "x" value := by
    unfold store_phase
    rw [if_neg hpf]
  constructor
  · intro h2 hnx
    rw [hst]
    have h3 : (store_phase PF st "x" value).inputVars = st.inputVars := by
      rw [hstore, set_state_var_third st "x" value h2 hnx]
    rw [← h3]
    exact hInp.2.2 (by rw [h3, h2])
  · intro hlt
    rw [hst]
    have hxs : "x" ∈ (store_phase PF st "x" value).inputVars := by
      rw [hstore]
      by_cases hmem : "x" ∈ st.inputVars
      · rcases set_state_var_inputs st "x" value with he | ⟨he, _, _⟩
        · rw [he]
          exact hmem
        · rw [he]
          exact List.mem_append.mpr (Or.inl hmem)
      · rw [set_state_var_append st "x" value hlt hmem]
        exact List.mem_append.mpr (Or.inr (List.mem_singleton.mpr rfl))
    exact hInp.1 hxs

def c4state : TState :=
  { attrs := [("T", PyVal.qty 300 uK)], inputVars := ["T"] }

theorem C4_x_tracking_witness :
    "x" ∈ (topSet okResolver [] c4state "x"
      (PyVal.qty (1/2) uDimless)).1.inputVars := by
  have h := C4_x_tracking okResolver [] 0 c4state
    (topSet okResolver [] c4state "x" (PyVal.qty (1/2) uDimless)).1
    (PyVal.qty (1/2) uDimless)
    (topSet okResolver [] c4state "x" (PyVal.qty (1/2) uDimless)).2
    (by decide) (by decide)
    (setattrF_one okResolver [] c4state "x" (PyVal.qty (1/2) uDimless))
  exact h.2 (by decide)

def c4ops : List Op :=
  [Op.set "x" (PyVal.num (1/2)), Op.set "T" (PyVal.num 300)]

/-- C4 (counterexample): assigning `x` to a fresh tracked state and then
`T` leaves the input list as `["x", "T"]` — `x` did join the input list
and did count toward the two-input rule, although it is not one of the six
primary variables. -/
theorem C4_x_counterexample :
    (runOps okResolver [] initState c4ops).map (fun st => st.inputVars)
      = some ["x", "T"] ∧
    "x" ∉ _STATE_VAR_ORDERED_FIELDS := by
  rw [runOps_eq_runPure]
  exact ⟨by decide, by decide⟩

/-- C1 (amended): from outside a resolution, one tracked-mode write of a
state variable or parameter invokes the pluggable resolve routine exactly
once if the post-store state is specified, parameterized and not complete,
and not at all otherwise; every recorded invocation ever made happens with
the `_is_calculating` guard down (no re-entrant invocation); and a write
to a complete two-input state that touches neither an input nor a
parameter silently drops the complete flag — which is why resolve can run
again later in the same specify/invalidate cycle. -/
theorem C1_resolve_invocation (R : Resolver) (PF : List String) (fuel : Nat)
    (st st' : TState) (name : String) (value : PyVal) (fl : Flow)
    (hc : st.isCalculating = false)
    (hv : is_none_or_empty value = false)
    (hn : name ∈ _STATE_VAR_FIELDS ∨ name ∈ PF)
    (h : setattrF R PF (fuel + 1) st name value = some (st', fl)) :
    rcalls st'.trace = rcalls st.trace +
      (if (_is_self_specified (flags_phase PF (store_phase PF st name value))
            && _is_self_parameterized PF
                (flags_phase PF (store_phase PF st name value))
            && !(flags_phase PF (store_phase PF st name value)).isComplete)
          = true
        then 1 else 0) ∧
    (∀ b, Ev.rcall b ∈ st'.trace → Ev.rcall b ∈ st.trace ∨ b = false) ∧
    (st.isComplete = true → st.inputVars.length = 2 → name ∉ PF →
      name ∉ st.inputVars → st'.isComplete = false) := by
  rw [setattrF_eq] at h
  injection h with h
  rw [topSet] at h
  rw [if_neg (show ¬(is_none_or_empty value = true) by simp [hv])] at h
  rw [if_neg (show ¬(name ∉ _STATE_VAR_FIELDS ∧ name ∉ PF) from
        fun hcon => by rcases hn with h2 | h2
                       exacts [hcon.1 h2, hcon.2 h2])] at h
  dsimp only at h
  have hstM : newEvInval st (flags_phase PF (store_phase PF st name value)) :=
    flags_newEvInval PF _ st (store_phase_newEvInval PF st name value)
  have hc2 : (flags_phase PF (store_phase PF st name value)).isCalculating
      = false := by
    rw [flags_isCalculating, store_phase_isCalculating, hc]
  rw [if_neg (show
        ¬((flags_phase PF (store_phase PF st name value)).isCalculating
          = true) by
      rw [hc2]
      exact Bool.false_ne_true)] at h
  have hcc : ∀ (_ : st.isComplete = true) (_ : st.inputVars.length = 2)
      (_ : name ∉ PF) (_ : name ∉ st.inputVars),
      (flags_phase PF (store_phase PF st name value)).isComplete = true := by
    intro hcomp h2 hpf hnin
    have hstore : store_phase PF st name value
        = { st with attrs := setA st.attrs name value } := by
      unfold store_phase
      rw [if_neg hpf]
      exact set_state_var_third st name value h2 hnin
    rw [flags_isComplete, hstore]
    exact hcomp
  by_cases hcond : (_is_self_specified
        (flags_phase PF (store_phase PF st name value))
      && _is_self_parameterized PF
          (flags_phase PF (store_phase PF st name value))
      && !(flags_phase PF (store_phase PF st name value)).isComplete) = true
  · have hres := resolveRun_pos R PF _ hc2 hcond
    rcases hr : resolveRun R PF (flags_phase PF (store_phase PF st name value))
      with ⟨st3, r⟩
    rw [hr] at h hres
    dsimp only at h hres
    have hvac : ∀ (_ : st.isComplete = true) (_ : st.inputVars.length = 2)
        (_ : name ∉ PF) (_ : name ∉ st.inputVars), False := by
      intro hcomp h2 hpf hnin
      rw [hcc hcomp h2 hpf hnin] at hcond
      simp at hcond
    cases r with
    | raised =>
      rw [Prod.mk.injEq] at h
      obtain ⟨h1, _⟩ := h
      subst h1
      refine ⟨?_, ?_, ?_⟩
      · rw [hres.1, if_pos hcond, newEvInval_rcalls hstM]
      · intro b hb
        rcases hres.2 b hb with h2 | h2
        · exact Or.inl (newEvInval_rcall_mem hstM h2)
        · exact Or.inr h2
      · intro hcomp h2 hpf hnin
        exact (hvac hcomp h2 hpf hnin).elim
    | ret b =>
      rw [Prod.mk.injEq] at h
      obtain ⟨h1, _⟩ := h
      subst h1
      refine ⟨?_, ?_, ?_⟩
      · rw [completeUpd_trace, hres.1, if_pos hcond, newEvInval_rcalls hstM]
      · intro b2 hb
        rw [completeUpd_trace] at hb
        rcases hres.2 b2 hb with h2 | h2
        · exact Or.inl (newEvInval_rcall_mem hstM h2)
        · exact Or.inr h2
      · intro hcomp h2 hpf hnin
        exact (hvac hcomp h2 hpf hnin).elim
  · rw [resolveRun_neg R PF _ hcond] at h
    dsimp only at h
    rw [Prod.mk.injEq] at h
    obtain ⟨h1, _⟩ := h
    subst h1
    refine ⟨?_, ?_, ?_⟩
    · rw [completeUpd_trace, if_neg hcond, newEvInval_rcalls hstM]
      omega
    · intro b hb
      rw [completeUpd_trace] at hb
      exact Or.inl (newEvInval_rcall_mem hstM hb)
    · intro _ _ _ _
      rw [completeUpd_isComplete]

def c1wstate : TState :=
  { attrs := [("P", PyVal.qty 2 uMPa)], inputVars := ["P"] }

theorem C1_resolve_invocation_witness :
    rcalls (topSet okResolver [] c1wstate "T" (PyVal.qty 300 uK)).1.trace
      = 1 := by
  have h := C1_resolve_invocation okResolver [] 0 c1wstate
    (topSet okResolver [] c1wstate "T" (PyVal.qty 300 uK)).1 "T"
    (PyVal.qty 300 uK)
    (topSet okResolver [] c1wstate "T" (PyVal.qty 300 uK)).2
    (by decide) (by decide) (Or.inl (by decide))
    (setattrF_one okResolver [] c1wstate "T" (PyVal.qty 300 uK))
  rw [h.1]
  decide

/-- Checks that between any two recorded resolve invocations an
invalidation occurs — the "at most once per specify/invalidate cycle"
reading of the trace. -/
def atMostOnceAux : Bool → List Ev → Bool
  | _, [] => true
  | _, Ev.inval :: r => atMostOnceAux false r
  | pending, Ev.rcall _ :: r => if pending then false else atMostOnceAux true r

def atMostOncePerCycle (tr : List Ev) : Bool := atMostOnceAux false tr

def c1ops : List Op :=
  [Op.set "T" (PyVal.num 300), Op.set "P" (PyVal.num 2),
   Op.set "x" (PyVal.num (1/2)), Op.set "v" (PyVal.num 9)]

/-- C1 (counterexample): specify `T` and `P` (resolve runs once and
succeeds), then write `x` (the post-completion write silently resets the
complete flag), then write `v`: resolve runs a second time although no
invalidation separated the two invocations — "at most once per
specify/invalidate cycle" fails on the code. -/
theorem C1_at_most_once_counterexample :
    (runOps okResolver [] initState c1ops).map
        (fun st => (st.trace, atMostOncePerCycle st.trace))
      = some ([Ev.inval, Ev.inval, Ev.rcall false, Ev.rcall false], false) := by
  rw [runOps_eq_runPure]
  decide

/-! ## Claim C8 -/

/-- Every default unit is a base unit of its dimension here (scale one,
offset zero). -/
theorem default_unit_base (p : String) :
    (get_default_unit p).scale = 1 ∧ (get_default_unit p).offset = 0 := by
  unfold get_default_unit
  split_ifs <;> exact ⟨rfl, rfl⟩

/-- C8: on a recognized state-variable field, a raw number is wrapped into
a quantity of that magnitude in the field's default unit, and a
dimensionally compatible quantity is converted into the default unit with
its physical value preserved (equal magnitude when re-expressed in the
base unit); names outside the state-variable registry pass any value
through unchanged. -/
theorem C8_dimensionalize (name other : String) (q m : ℚ) (u : PintUnit)
    (w : PyVal) (hname : name ∈ _STATE_VAR_FIELDS)
    (hu : u.dim = (get_default_unit name).dim)
    (hother : other ∉ _STATE_VAR_FIELDS) :
    _dimensionalize name (PyVal.num q)
      = some (PyVal.qty q (get_default_unit name)) ∧
    (∃ m2, _dimensionalize name (PyVal.qty m u)
        = some (PyVal.qty m2 (get_default_unit name)) ∧
      toBase m2 (get_default_unit name) = toBase m u) ∧
    _dimensionalize other w = some w := by
  refine ⟨?_, ?_, ?_⟩
  · simp [_dimensionalize, hname]
  · refine ⟨(m * u.scale + u.offset - (get_default_unit name).offset)
        / (get_default_unit name).scale, ?_, ?_⟩
    · simp [_dimensionalize, hname, uconv, hu]
    · obtain ⟨hs, ho⟩ := default_unit_base name
      rw [toBase, toBase, hs, ho]
      simp
  · cases w <;> simp [_dimensionalize, hother]

theorem C8_dimensionalize_witness :
    _dimensionalize "P" (PyVal.num 3) = some (PyVal.qty 3 uMPa) ∧
    _dimensionalize "P" (PyVal.qty 2 uBar) = some (PyVal.qty (1/5) uMPa) ∧
    _dimensionalize "year" (PyVal.num 3) = some (PyVal.num 3) := by
  have h := C8_dimensionalize "P" "year" 3 2 uBar (PyVal.num 3)
    (by decide) (by decide) (by decide)
  refine ⟨h.1, ?_, h.2.2⟩
  norm_num [_dimensionalize, _STATE_VAR_FIELDS, _STATE_VAR_ORDERED_FIELDS,
    get_default_unit, uconv, uBar, uMPa]

/-! ## Claim C9 -/

theorem defaultUnitsOnly_spec {st : TState} (h : defaultUnitsOnly st = true)
    {p : String} (hp : p ∈ _STATE_VAR_FIELDS) :
    getA st.attrs p = PyVal.none ∨
    ∃ m, getA st.attrs p = PyVal.qty m (get_default_unit p) := by
  rw [defaultUnitsOnly, List.all_eq_true] at h
  have h2 := h p hp
  cases hg : getA st.attrs p with
  | none => exact Or.inl rfl
  | qty m u =>
    rw [hg] at h2
    exact Or.inr ⟨m, by rw [of_decide_eq_true h2]⟩
  | emptyList =>
    rw [hg] at h2
    exact Bool.noConfusion h2
  | emptyDict =>
    rw [hg] at h2
    exact Bool.noConfusion h2
  | emptyArr =>
    rw [hg] at h2
    exact Bool.noConfusion h2
  | num q =>
    rw [hg] at h2
    exact Bool.noConfusion h2
  | obj t =>
    rw [hg] at h2
    exact Bool.noConfusion h2

/-- Converting a magnitude from a default unit to itself is the
identity. -/
theorem uconv_default_self (m : ℚ) (p : String) :
    uconv m (get_default_unit p) (get_default_unit p) = some m := by
  obtain ⟨hs, ho⟩ := default_unit_base p
  rw [uconv, if_pos rfl, hs, ho]
  simp

/-- Over default-unit states, the `delta` field loop computes exactly the
magnitude differences of the fields present in both states. -/
theorem deltaBase_default (s1 s2 : TState) (l : List String)
    (hsub : ∀ p ∈ l, p ∈ _STATE_VAR_FIELDS)
    (h1 : defaultUnitsOnly s1 = true) (h2 : defaultUnitsOnly s2 = true) :
    deltaBase s1 s2 l = some (l.filterMap (fun p =>
      match getA s1.attrs p, getA s2.attrs p with
      | PyVal.qty m1 _, PyVal.qty m2 _ =>
          some (p, m2 - m1, get_default_unit p)
      | _, _ => Option.none)) := by
  induction l with
  | nil => rfl
  | cons p rest ih =>
    have hp := hsub p (List.mem_cons_self p rest)
    have hrest : ∀ q ∈ rest, q ∈ _STATE_VAR_FIELDS :=
      fun q hq => hsub q (List.mem_cons_of_mem p hq)
    rw [deltaBase, List.filterMap_cons]
    rcases defaultUnitsOnly_spec h1 hp with hg1 | ⟨m1, hg1⟩
    · rw [hg1]
      rw [if_pos (Or.inl rfl)]
      rw [ih hrest]
    · rcases defaultUnitsOnly_spec h2 hp with hg2 | ⟨m2, hg2⟩
      · rw [hg1, hg2]
        rw [if_pos (Or.inr rfl)]
        rw [ih hrest]
      · rw [hg1, hg2]
        rw [if_neg (by simp)]
        rw [pySub]
        rw [uconv_default_self]
        simp only [Option.map_some']
        rw [ih hrest]
        rfl

/-- Pointwise negation symmetry of the field loop. -/
theorem deltaBase_filterMap_neg (s1 s2 : TState) (l : List String) :
    l.filterMap (fun p =>
      match getA s2.attrs p, getA s1.attrs p with
      | PyVal.qty m1 _, PyVal.qty m2 _ =>
          some (p, m2 - m1, get_default_unit p)
      | _, _ => Option.none)
    = (l.filterMap (fun p =>
      match getA s1.attrs p, getA s2.attrs p with
      | PyVal.qty m1 _, PyVal.qty m2 _ =>
          some (p, m2 - m1, get_default_unit p)
      | _, _ => Option.none)).map (fun t => (t.1, -t.2.1, t.2.2)) := by
  induction l with
  | nil => rfl
  | cons p rest ih =>
    rw [List.filterMap_cons, List.filterMap_cons]
    cases getA s1.attrs p <;> cases getA s2.attrs p <;>
      simp [ih, neg_sub]

/-- C9: for default-unit states on which `delta` is defined (both `Pv`
values exist), `delta s1 s2` maps exactly the fields present in both
states to the signed difference (other minus self) in the field's default
unit, omits the rest, appends the `Pv` difference, and `delta s2 s1` is
its entrywise negation. -/
theorem C9_delta (s1 s2 : TState) (a b : ℚ)
    (h1 : defaultUnitsOnly s1 = true) (h2 : defaultUnitsOnly s2 = true)
    (hp1 : Pv s1 = some a) (hp2 : Pv s2 = some b) :
    delta s1 s2 = some (deltaExplicit s1 s2 a b) ∧
    delta s2 s1 = some (negEntries (deltaExplicit s1 s2 a b)) := by
  have hbase12 := deltaBase_default s1 s2 _STATE_VAR_FIELDS
    (fun p hp => hp) h1 h2
  have hbase21 := deltaBase_default s2 s1 _STATE_VAR_FIELDS
    (fun p hp => hp) h2 h1
  constructor
  · rw [delta, hbase12, hp1, hp2, deltaExplicit]
  · rw [delta, hbase21, hp2, hp1, deltaExplicit, negEntries,
        List.map_append]
    rw [deltaBase_filterMap_neg s1 s2]
    dsimp only [List.map]
    rw [neg_sub]

def c9s1 : TState :=
  { attrs := [("T", PyVal.qty 300 uK), ("P", PyVal.qty 2 uMPa),
              ("v", PyVal.qty 3 uM3Mol)] }

def c9s2 : TState :=
  { attrs := [("P", PyVal.qty 5 uMPa), ("v", PyVal.qty 7 uM3Mol),
              ("h", PyVal.qty 4 uJMol)] }

theorem C9_delta_witness :
    delta c9s1 c9s2 = some (deltaExplicit c9s1 c9s2 6000000 35000000) ∧
    delta c9s2 c9s1
      = some (negEntries (deltaExplicit c9s1 c9s2 6000000 35000000)) :=
  C9_delta c9s1 c9s2 6000000 35000000 (by decide) (by decide)
    (by simp +decide [Pv, c9s1, getA, uMPa, uM3Mol, uK]
        norm_num)
    (by simp +decide [Pv, c9s2, getA, uMPa, uM3Mol, uJMol]
        norm_num)

end Sandler
